import Mathlib

/-!
Verification of the LMS frontend's pure logic, shallowly embedded from the
TypeScript sources:

* `generateNimAndPassword`, `getNextOrderForToday` and the bulk-upload
  allocation loop of `handleUploadTemplate` (superadmin user-management page);
* `apiRequest` of `src/lib/apiClient.ts` (URL building, query encoding,
  header merging, and response/error handling).

JavaScript strings are modelled as `List Char`; the machine numbers on the
relevant code paths are small integers, modelled as `Nat`/`Int`.
Definitions come first, then the theorems.
-/

namespace LMS

/-! ### Decimal rendering, mirroring JavaScript `String(n)` for a
natural number, and `padStart(w, "0")`. -/

/-- The decimal digit character for `d < 10` (`'0'` has code 48). -/
def digitChar (d : Nat) : Char := Char.ofNat (48 + d)

/-- Fuel-driven helper for `natDigits`; with fuel above `n` it computes the
decimal digits of `n`, most significant first. -/
def natDigitsAux : Nat → Nat → List Char
  | 0, _ => []
  | fuel + 1, n =>
      if n < 10 then [digitChar n]
      else natDigitsAux fuel (n / 10) ++ [digitChar (n % 10)]

/-- Decimal digits of a natural number, most significant first; embeds the
JavaScript `String(n)` conversion of a nonnegative integer. -/
def natDigits (n : Nat) : List Char := natDigitsAux (n + 1) n

/-- JavaScript `String(n)` for an integer. -/
def intChars (n : Int) : List Char :=
  if n < 0 then '-' :: natDigits n.natAbs else natDigits n.toNat

/-- `s.padStart(w, "0")`: prepend zeros until the length is at least `w`. -/
def padZeros (w : Nat) (l : List Char) : List Char :=
  List.replicate (w - l.length) '0' ++ l

/-- Reads a digit string back as a number: left inverse of `natDigits`,
used to prove injectivity of the NIM rendering. -/
def digitsToNat (l : List Char) : Nat :=
  l.foldl (fun a c => a * 10 + (c.toNat - 48)) 0

/-! ### JavaScript string primitives used by the page: the `\s` class
(`replace(/\s+/g, "")`), `trim()`, and `parseInt(s, 10)`. -/

/-- The JavaScript `\s` / trim whitespace class (code points of the
ECMAScript WhiteSpace and LineTerminator productions). -/
def isJsWhitespace (c : Char) : Bool :=
  c == ' ' || c == '\t' || c == '\n' || c == '\r' ||
  c.toNat == 11 || c.toNat == 12 || c.toNat == 0xA0 || c.toNat == 0x1680 ||
  (0x2000 ≤ c.toNat && c.toNat ≤ 0x200A) || c.toNat == 0x2028 ||
  c.toNat == 0x2029 || c.toNat == 0x202F || c.toNat == 0x205F ||
  c.toNat == 0x3000 || c.toNat == 0xFEFF

/-- JavaScript `s.trim()`: strip leading and trailing whitespace. -/
def jsTrim (l : List Char) : List Char :=
  ((l.dropWhile isJsWhitespace).reverse.dropWhile isJsWhitespace).reverse

/-- The longest digit run at the head of the list. -/
def leadingDigits (l : List Char) : List Char :=
  l.takeWhile fun c => decide ('0' ≤ c) && decide (c ≤ '9')

/-- JavaScript `Number.parseInt(s, 10)`: skip leading whitespace, read an
optional sign and then a decimal digit run; `none` models `NaN`. -/
def jsParseInt (l : List Char) : Option Int :=
  let t := l.dropWhile isJsWhitespace
  match t with
  | '-' :: rest =>
      if leadingDigits rest = [] then none
      else some (-(digitsToNat (leadingDigits rest) : Int))
  | '+' :: rest =>
      if leadingDigits rest = [] then none
      else some ((digitsToNat (leadingDigits rest) : Int))
  | _ =>
      if leadingDigits t = [] then none
      else some ((digitsToNat (leadingDigits t) : Int))

/-! ### NIM / password generation (superadmin user-management page)

The page builds, from a reference `Date`, the strings
`year = getFullYear()`, `month = getMonth()+1` and `day = getDate()`
zero-padded to two characters, and `orderStr` zero-padded to three. -/

/-- Calendar date as read off a JavaScript `Date`:
`year = getFullYear()`, `month = getMonth() + 1`, `day = getDate()`. -/
structure YMD where
  year : Nat
  month : Nat
  day : Nat
  deriving DecidableEq

/-- `${year}${month}${day}` with month and day `padStart(2, "0")`-ed. -/
def dateChars (d : YMD) : List Char :=
  natDigits d.year ++ padZeros 2 (natDigits d.month) ++ padZeros 2 (natDigits d.day)

/-- The NIM for a date and an order: `${year}${month}${day}${orderStr}`
with `orderStr = String(order).padStart(3, "0")`. -/
def nimChars (d : YMD) (order : Nat) : List Char :=
  dateChars d ++ padZeros 3 (natDigits order)

/-- Result record of `generateNimAndPassword`. -/
structure GeneratedIdentity where
  nim : List Char
  password : List Char
  username : List Char
  deriving DecidableEq

/-- `generateNimAndPassword(name, order, date)`:
`nim` as above, `password` = first 7 characters of the name with all
whitespace removed and lower-cased (`replace(/\s+/g, "").toLowerCase()
.slice(0, 7)`) followed by `orderStr`, and `username = nim`.
`Char.toLower` stands in for the JavaScript `toLowerCase()` (they agree on
the Latin alphabet). -/
def generateNimAndPassword (name : List Char) (order : Nat) (d : YMD) :
    GeneratedIdentity :=
  let orderStr := padZeros 3 (natDigits order)
  let nim := nimChars d order
  let normalizedName :=
    (((name.filter fun c => !isJsWhitespace c).map Char.toLower).take 7)
  { nim := nim, password := normalizedName ++ orderStr, username := nim }

/-- The slice of a user row that `getNextOrderForToday` and the bulk-upload
collision sets read: the role string and the optional NIM string. -/
structure User where
  role : List Char
  nim : Option (List Char)
  deriving DecidableEq

/-- The `users.forEach((u) => …)` body of `getNextOrderForToday`: skip
non-students and absent/empty NIMs (the `!u.nim` guard fires before
trimming), require the trimmed NIM to start with the date prefix and to
have a nonempty suffix, and raise the running maximum when the parsed
suffix beats it. -/
def nextOrderStep (d : YMD) (maxOrder : Int) (u : User) : Int :=
  if u.role ≠ "mahasiswa".toList then maxOrder
  else
    match u.nim with
    | none => maxOrder
    | some s =>
      if s = [] then maxOrder
      else
        let nim := jsTrim s
        if ¬ (dateChars d).isPrefixOf nim then maxOrder
        else
          let suffix := nim.drop (dateChars d).length
          if suffix.length = 0 then maxOrder
          else
            match jsParseInt suffix with
            | none => maxOrder
            | some n => if maxOrder < n then n else maxOrder

/-- `getNextOrderForToday(users, date)`: over students whose (trimmed) NIM
starts with the date prefix `${year}${month}${day}`, take the greatest
`parseInt` of the suffix after the prefix, and return one more than it
(1 when nothing matched). -/
def getNextOrderForToday (users : List User) (d : YMD) : Int :=
  (users.foldl (nextOrderStep d) 0) + 1

/-- The per-user extraction step inside `getNextOrderForToday`'s loop,
factored out for the proofs: the parsed suffix this user contributes to
the running maximum, if any. -/
def nimSuffixValue (d : YMD) (u : User) : Option Int :=
  if u.role ≠ "mahasiswa".toList then none
  else
    match u.nim with
    | none => none
    | some s =>
      if s = [] then none
      else
        let nim := jsTrim s
        if ¬ (dateChars d).isPrefixOf nim then none
        else
          let suffix := nim.drop (dateChars d).length
          if suffix.length = 0 then none
          else jsParseInt suffix

/-! ### The bulk-upload allocation loop of `handleUploadTemplate`

For each non-blank name the page searches, starting from `baseOrder`, for
the first candidate order whose generated NIM/username collides with
neither `usedNims` nor `usedUsernames` (a `while (true)` loop in the
source); it then records the row, adds the NIM and username to the used
sets, and continues with `baseOrder = candidateOrder + 1`. The search is
written with fuel `(usedNims ∪ usedUsernames).card + 1`;
`findCandidateOrder_free` below shows this fuel always suffices, so the
function agrees with the unbounded source loop. -/

/-- One row of the preview table built from the uploaded sheet. -/
structure BulkStudentRow where
  order : Nat
  name : List Char
  nim : List Char
  username : List Char
  password : List Char
  deriving DecidableEq

/-- The collision-avoidance search of `handleUploadTemplate`: try
`cand, cand + 1, …` until the generated NIM and username are fresh. -/
def findCandidateOrder (usedNims usedUsernames : Finset (List Char))
    (name : List Char) (d : YMD) : Nat → Nat → Nat
  | 0, cand => cand
  | fuel + 1, cand =>
      let g := generateNimAndPassword name cand d
      if g.nim ∈ usedNims ∨ g.username ∈ usedUsernames then
        findCandidateOrder usedNims usedUsernames name d fuel (cand + 1)
      else cand

/-- The `json.forEach` loop of `handleUploadTemplate`: blank names are
skipped; each other name gets the first collision-free order, its row is
pushed, the NIM and username enter the used sets, and the next name starts
from the successor order. Returns the rows and the final used sets. -/
def allocateBatch (names : List (List Char)) (baseOrder : Nat) (d : YMD)
    (usedNims usedUsernames : Finset (List Char)) :
    List BulkStudentRow × Finset (List Char) × Finset (List Char) :=
  match names with
  | [] => ([], usedNims, usedUsernames)
  | n :: rest =>
      let rawName := jsTrim n
      if rawName = [] then allocateBatch rest baseOrder d usedNims usedUsernames
      else
        let fuel := (usedNims ∪ usedUsernames).card + 1
        let ord := findCandidateOrder usedNims usedUsernames rawName d fuel baseOrder
        let g := generateNimAndPassword rawName ord d
        let row : BulkStudentRow :=
          { order := ord, name := rawName, nim := g.nim,
            username := g.username, password := g.password }
        let out := allocateBatch rest (ord + 1) d
          (insert g.nim usedNims) (insert g.username usedUsernames)
        (row :: out.1, out.2)

/-! ### `apiRequest` (src/lib/apiClient.ts)

The gateway's pure parts: URL building with query encoding, header
merging, and the response / error path. The network transfer itself is
abstracted into an `HttpResponse` record holding what the code reads off
a `fetch` `Response`: the status, the `Content-Type` header, and the value
`response.json()` would resolve to (`none` when the body is not valid
JSON, i.e. the parse rejects). -/

/-- JSON values, as produced by `response.json()`. -/
inductive Json where
  | null
  | bool (b : Bool)
  | num (n : Int)
  | str (s : List Char)
  | arr (elems : List Json)
  | obj (fields : List (List Char × Json))

/-- JavaScript truthiness of a JSON value (`Boolean(v)`). -/
def jsTruthy : Json → Bool
  | .null => false
  | .bool b => b
  | .num n => decide (n ≠ 0)
  | .str s => !s.isEmpty
  | .arr _ => true
  | .obj _ => true

/-- Truthiness of a possibly-absent property (`undefined` is falsy). -/
def jsTruthyOpt : Option Json → Bool
  | none => false
  | some v => jsTruthy v

/-- Nullishness, as tested by `??`: `undefined` or `null`. -/
def jsNullish : Option Json → Bool
  | none => true
  | some .null => true
  | some _ => false

/-- `typeof v === "object"` for a JSON value (true for `null`, arrays and
objects; false for strings, numbers and booleans). -/
def jsTypeofObject : Json → Bool
  | .null => true
  | .arr _ => true
  | .obj _ => true
  | _ => false

/-- Property read `j[key]` on a parsed JSON value: `none` models
`undefined` (not an object, or no such field). -/
def jsGetField (j : Json) (key : List Char) : Option Json :=
  match j with
  | .obj fields => (fields.find? fun f => f.1 = key).map fun f => f.2
  | _ => none

/-- `String(v)` for a JSON value sitting in a `message`/`error` field.
Stringification of arrays (element join) is abbreviated to the empty
string: the error bodies of this backend only carry string fields. -/
def jsToString : Json → List Char
  | .null => "null".toList
  | .bool true => "true".toList
  | .bool false => "false".toList
  | .num n => intChars n
  | .str s => s
  | .arr _ => []
  | .obj _ => "[object Object]".toList

/-- The query values admitted by `ApiRequestOptions.query`:
`string | number | boolean | null | undefined`; `null` also stands for
`undefined`, which the URL-building code treats identically. -/
inductive QueryValue where
  | str (s : List Char)
  | num (n : Int)
  | bool (b : Bool)
  | null
  deriving DecidableEq

/-- The guard `value === null || value === undefined || value === ""`
deciding that a query entry is dropped. -/
def isSkippedQueryValue : QueryValue → Bool
  | .null => true
  | .str [] => true
  | _ => false

/-- `String(value)` as applied by `params.append(key, String(value))`. -/
def queryValueChars : QueryValue → List Char
  | .str s => s
  | .num n => intChars n
  | .bool true => "true".toList
  | .bool false => "false".toList
  | .null => "null".toList

/-- Uppercase hexadecimal digit for `d < 16`. -/
def hexDigitChar (d : Nat) : Char :=
  if d < 10 then digitChar d else Char.ofNat (55 + d)

/-- UTF-8 bytes of a character. -/
def utf8Bytes (c : Char) : List Nat :=
  let n := c.toNat
  if n < 0x80 then [n]
  else if n < 0x800 then [0xC0 + n / 0x40, 0x80 + n % 0x40]
  else if n < 0x10000 then
    [0xE0 + n / 0x1000, 0x80 + (n / 0x40) % 0x40, 0x80 + n % 0x40]
  else
    [0xF0 + n / 0x40000, 0x80 + (n / 0x1000) % 0x40,
     0x80 + (n / 0x40) % 0x40, 0x80 + n % 0x40]

/-- A percent-escaped byte, `%XX`. -/
def percentByte (b : Nat) : List Char :=
  ['%', hexDigitChar (b / 16), hexDigitChar (b % 16)]

/-- Characters `URLSearchParams` serialization leaves as-is
(`application/x-www-form-urlencoded`): ASCII alphanumerics and `*-._`. -/
def isFormUrlSafe (c : Char) : Bool :=
  (decide ('0' ≤ c) && decide (c ≤ '9')) ||
  (decide ('A' ≤ c) && decide (c ≤ 'Z')) ||
  (decide ('a' ≤ c) && decide (c ≤ 'z')) ||
  c == '*' || c == '-' || c == '.' || c == '_'

/-- `application/x-www-form-urlencoded` escaping of one character:
safe characters kept, space becomes `+`, anything else percent-escaped
byte by byte. -/
def formUrlEncodeChar (c : Char) : List Char :=
  if isFormUrlSafe c then [c]
  else if c == ' ' then ['+']
  else ((utf8Bytes c).map percentByte).flatten

/-- `URLSearchParams` encoding of one key or value. -/
def formUrlEncode (s : List Char) : List Char :=
  (s.map formUrlEncodeChar).flatten

/-- `params.toString()` after appending, in order, every query entry whose
value survives the null/undefined/empty-string guard. -/
def buildQueryString (query : List (List Char × QueryValue)) : List Char :=
  let kept := query.filter fun e => !isSkippedQueryValue e.2
  let parts := kept.map fun e =>
    formUrlEncode e.1 ++ '=' :: formUrlEncode (queryValueChars e.2)
  List.intercalate ['&'] parts

/-- `path.replace(/^\/+/, "")`. -/
def dropLeadingSlashes (l : List Char) : List Char :=
  l.dropWhile fun c => c == '/'

/-- `API_BASE_URL.replace(/\/+$/, "")`. -/
def dropTrailingSlashes (l : List Char) : List Char :=
  ((l.reverse.dropWhile fun c => c == '/')).reverse

/-- The base/path join of `apiRequest`: a path starting with `"http"` is
taken verbatim, otherwise the trimmed base and trimmed path are joined
with a single `/`. -/
def joinUrl (baseUrl p : List Char) : List Char :=
  if "http".toList.isPrefixOf p then p
  else dropTrailingSlashes baseUrl ++ '/' :: dropLeadingSlashes p

/-- The full URL `apiRequest` passes to `fetch`: the joined URL, then —
when a query object with at least one key is present and serializes to a
nonempty string — the query string after `?` (or `&` if the URL already
contains a `?`). -/
def buildRequestUrl (baseUrl p : List Char)
    (query : Option (List (List Char × QueryValue))) : List Char :=
  let url := joinUrl baseUrl p
  match query with
  | none => url
  | some q =>
      if q.length = 0 then url
      else
        let qs := buildQueryString q
        if qs = [] then url
        else url ++ (if url.contains '?' then '&' else '?') :: qs

/-- `hay.includes(needle)`: Boolean substring test, as used on the
`Content-Type` header. -/
def hasSubstring (needle : List Char) : List Char → Bool
  | [] => needle.isEmpty
  | c :: t => needle.isPrefixOf (c :: t) || hasSubstring needle t

/-- What the `body` option contributes to header handling: absent (or
`null`), a JSON-serializable value, or a `FormData`. -/
inductive RequestBodyKind where
  | absent
  | jsonValue
  | formData
  deriving DecidableEq

/-- Property read on a JavaScript record object. -/
def jsObjectGet (m : List (List Char × List Char)) (k : List Char) :
    Option (List Char) :=
  (m.find? fun e => e.1 = k).map fun e => e.2

/-- Property write on a JavaScript record object: overwrite in place if
the key exists, append otherwise. -/
def jsObjectSet (m : List (List Char × List Char)) (k v : List Char) :
    List (List Char × List Char) :=
  if (m.find? fun e => e.1 = k).isSome then
    m.map fun e => if e.1 = k then (e.1, v) else e
  else m ++ [(k, v)]

/-- Object spread `{ ...m, ...entries }`: later entries overwrite. -/
def jsObjectSpread (m : List (List Char × List Char))
    (entries : List (List Char × List Char)) : List (List Char × List Char) :=
  entries.foldl (fun acc e => jsObjectSet acc e.1 e.2) m

/-- `{ Accept: "application/json", ...headers }`. -/
def mergeDefaultHeaders (headers : List (List Char × List Char)) :
    List (List Char × List Char) :=
  jsObjectSpread [("Accept".toList, "application/json".toList)] headers

/-- `requestHeaders["Content-Type"] = requestHeaders["Content-Type"] ??
"application/json"`, executed only when a non-`FormData`, non-null body
is present. -/
def applyContentTypeDefault (m : List (List Char × List Char))
    (bodyKind : RequestBodyKind) : List (List Char × List Char) :=
  match bodyKind with
  | .jsonValue =>
      match jsObjectGet m "Content-Type".toList with
      | some _ => m
      | none => jsObjectSet m "Content-Type".toList "application/json".toList
  | _ => m

/-- When `withAuth` and the resolved token (`tokenOverride ??
getAuthToken()`) is truthy, `Authorization` is overwritten with
`Bearer <token>`. -/
def applyAuthHeader (m : List (List Char × List Char)) (withAuth : Bool)
    (tokenOverride : Option (List Char)) (storedToken : Option (List Char)) :
    List (List Char × List Char) :=
  if withAuth then
    let token :=
      match tokenOverride with
      | some t => some t
      | none => storedToken
    match token with
    | some t =>
        if t ≠ [] then
          jsObjectSet m "Authorization".toList ("Bearer ".toList ++ t)
        else m
    | none => m
  else m

/-- The request-header assembly of `apiRequest`, in source order: defaults
spread, `Content-Type` default, `Authorization` overwrite. -/
def buildRequestHeaders (headers : List (List Char × List Char))
    (bodyKind : RequestBodyKind) (withAuth : Bool)
    (tokenOverride : Option (List Char)) (storedToken : Option (List Char)) :
    List (List Char × List Char) :=
  applyAuthHeader (applyContentTypeDefault (mergeDefaultHeaders headers) bodyKind)
    withAuth tokenOverride storedToken

/-- What the code reads off the `fetch` `Response`. -/
structure HttpResponse where
  status : Nat
  contentType : Option (List Char)
  jsonBody : Option Json

/-- The error thrown on a non-2xx status (`ApiError`): message, HTTP
status, and the parsed body. -/
structure ApiError where
  message : List Char
  status : Nat
  data : Json

/-! The response-handling tail of `apiRequest`, statement by statement:
`const contentType = response.headers.get("Content-Type") ?? ""`, the
JSON sniff, the caught body parse, the error-message preference, and the
final ok/throw branch on `response.ok` (status 200–299). -/

/-- `response.headers.get("Content-Type") ?? ""`. -/
def contentTypeOf (r : HttpResponse) : List Char :=
  match r.contentType with
  | some ct => ct
  | none => []

/-- `const isJson = contentType.includes("application/json")`. -/
def isJsonResponse (r : HttpResponse) : Bool :=
  hasSubstring "application/json".toList (contentTypeOf r)

/-- `const responseData = isJson ? await response.json().catch(() => null)
: null`. -/
def responseDataOf (r : HttpResponse) : Json :=
  if isJsonResponse r = true then
    match r.jsonBody with
    | some j => j
    | none => Json.null
  else Json.null

/-- The `message` of the thrown error: prefers a truthy `message` then
`error` field of an object body over the generic
`Request failed with status <code>` text. -/
def errorMessageOf (r : HttpResponse) : List Char :=
  let base := "Request failed with status ".toList ++ natDigits r.status
  if (isJsonResponse r && jsTruthy (responseDataOf r) &&
      jsTypeofObject (responseDataOf r)) = true then
    let mv := jsGetField (responseDataOf r) "message".toList
    let ev := jsGetField (responseDataOf r) "error".toList
    if jsTruthyOpt mv || jsTruthyOpt ev then
      if jsNullish mv then
        if jsNullish ev then base else jsToString (ev.getD Json.null)
      else jsToString (mv.getD Json.null)
    else base
  else base

def handleResponse (r : HttpResponse) : Except ApiError Json :=
  if 200 ≤ r.status ∧ r.status < 300 then Except.ok (responseDataOf r)
  else
    Except.error
      { message := errorMessageOf r, status := r.status, data := responseDataOf r }

/-! ## Theorems -/

/-! ### Decimal rendering -/

theorem natDigitsAux_fuel_irrel (n : Nat) :
    ∀ f₁ f₂, n < f₁ → n < f₂ → natDigitsAux f₁ n = natDigitsAux f₂ n := by
  induction n using Nat.strong_induction_on with
  | _ n ih =>
    intro f₁ f₂ h₁ h₂
    cases f₁ with
    | zero => omega
    | succ g₁ =>
      cases f₂ with
      | zero => omega
      | succ g₂ =>
        simp only [natDigitsAux]
        by_cases h : n < 10
        · simp [h]
        · have hd : n / 10 < n := Nat.div_lt_self (by omega) (by omega)
          rw [if_neg h, if_neg h]
          congr 1
          exact ih (n / 10) hd g₁ g₂ (by omega) (by omega)

/-- The recursive unfolding that `natDigits` satisfies. -/
theorem natDigits_eq (n : Nat) :
    natDigits n =
      if n < 10 then [digitChar n]
      else natDigits (n / 10) ++ [digitChar (n % 10)] := by
  show natDigitsAux (n + 1) n = _
  rw [natDigitsAux]
  by_cases h : n < 10
  · simp [h]
  · have hd : n / 10 < n := Nat.div_lt_self (by omega) (by omega)
    rw [if_neg h, if_neg h]
    congr 1
    exact natDigitsAux_fuel_irrel (n / 10) n (n / 10 + 1) (by omega) (by omega)

theorem digitsToNat_append (l₁ l₂ : List Char) :
    digitsToNat (l₁ ++ l₂) =
      l₂.foldl (fun a c => a * 10 + (c.toNat - 48)) (digitsToNat l₁) := by
  simp [digitsToNat, List.foldl_append]

theorem digitChar_toNat (d : Nat) (h : d < 10) : (digitChar d).toNat = 48 + d := by
  interval_cases d <;> decide

theorem digitsToNat_natDigits (n : Nat) : digitsToNat (natDigits n) = n := by
  induction n using Nat.strong_induction_on with
  | _ n ih =>
    rw [natDigits_eq]
    by_cases h : n < 10
    · simp [h, digitsToNat, digitChar_toNat n h]
    · have hd : n / 10 < n := Nat.div_lt_self (by omega) (by omega)
      rw [if_neg h]
      rw [digitsToNat_append, ih (n / 10) hd]
      simp [digitChar_toNat (n % 10) (Nat.mod_lt _ (by omega))]
      omega

theorem digitsToNat_replicate_zero_append (k : Nat) (l : List Char) :
    digitsToNat (List.replicate k '0' ++ l) = digitsToNat l := by
  induction k with
  | zero => simp
  | succ k ih =>
    have : List.replicate (k + 1) '0' ++ l = '0' :: (List.replicate k '0' ++ l) := by
      simp [List.replicate_succ]
    rw [this]
    simpa [digitsToNat] using ih

theorem digitsToNat_padZeros (w : Nat) (l : List Char) :
    digitsToNat (padZeros w l) = digitsToNat l :=
  digitsToNat_replicate_zero_append _ _

/-- Zero-padding the decimal rendering is injective: the pigeonhole core of
the bulk allocator's freshness argument. -/
theorem padZeros_natDigits_injective (w : Nat) :
    Function.Injective (fun n => padZeros w (natDigits n)) := by
  intro a b h
  have := congrArg digitsToNat h
  simpa [digitsToNat_padZeros, digitsToNat_natDigits] using this

theorem natDigits_lt_pow_length (n : Nat) : n < 10 ^ (natDigits n).length := by
  induction n using Nat.strong_induction_on with
  | _ n ih =>
    rw [natDigits_eq]
    by_cases h : n < 10
    · rw [if_pos h]; simpa using h
    · have hd : n / 10 < n := Nat.div_lt_self (by omega) (by omega)
      rw [if_neg h]
      simp only [List.length_append, List.length_cons, List.length_nil]
      have h1 : n / 10 < 10 ^ (natDigits (n / 10)).length := ih (n / 10) hd
      have h2 : n = (n / 10) * 10 + n % 10 := by omega
      have h3 : n % 10 < 10 := Nat.mod_lt _ (by omega)
      calc n = (n / 10) * 10 + n % 10 := h2
        _ < (n / 10) * 10 + 10 := by omega
        _ = (n / 10 + 1) * 10 := by ring
        _ ≤ 10 ^ (natDigits (n / 10)).length * 10 := by
              have : n / 10 + 1 ≤ 10 ^ (natDigits (n / 10)).length := h1
              exact Nat.mul_le_mul_right 10 this
        _ = 10 ^ ((natDigits (n / 10)).length + 1) := by ring

theorem natDigits_length_ge (k n : Nat) (h : 10 ^ k ≤ n) :
    k + 1 ≤ (natDigits n).length := by
  by_contra hc
  push_neg at hc
  have h1 : n < 10 ^ (natDigits n).length := natDigits_lt_pow_length n
  have h2 : (10 : Nat) ^ (natDigits n).length ≤ 10 ^ k :=
    Nat.pow_le_pow_right (by omega) (by omega)
  omega

theorem padZeros_of_length_ge (w : Nat) (l : List Char) (h : w ≤ l.length) :
    padZeros w l = l := by
  simp [padZeros, Nat.sub_eq_zero_of_le h]

theorem padZeros_length (w : Nat) (l : List Char) :
    (padZeros w l).length = (w - l.length) + l.length := by
  simp [padZeros]

theorem natDigits_length_pos (n : Nat) : 1 ≤ (natDigits n).length := by
  rw [natDigits_eq]
  split <;> simp

theorem pow_pred_le_natDigits (n : Nat) (h : 1 ≤ n) :
    10 ^ ((natDigits n).length - 1) ≤ n := by
  induction n using Nat.strong_induction_on with
  | _ n ih =>
    rw [natDigits_eq]
    by_cases h10 : n < 10
    · rw [if_pos h10]
      simpa using h
    · rw [if_neg h10]
      simp only [List.length_append, List.length_cons, List.length_nil]
      have hd : n / 10 < n := Nat.div_lt_self (by omega) (by omega)
      have hL := natDigits_length_pos (n / 10)
      have ihh := ih (n / 10) hd (by omega)
      have hmul : 10 ^ ((natDigits (n / 10)).length - 1 + 1) ≤ n / 10 * 10 := by
        rw [pow_succ]
        exact Nat.mul_le_mul_right 10 ihh
      calc 10 ^ ((natDigits (n / 10)).length + 1 - 1)
          = 10 ^ ((natDigits (n / 10)).length - 1 + 1) := by congr 1; omega
        _ ≤ n / 10 * 10 := hmul
        _ ≤ n := by omega

theorem natDigits_length_le (n k : Nat) (hk : 1 ≤ k) (h : n < 10 ^ k) :
    (natDigits n).length ≤ k := by
  by_cases hn : n = 0
  · subst hn
    rw [natDigits_eq, if_pos (by omega)]
    simpa using hk
  · by_contra hc
    push_neg at hc
    have h1 := pow_pred_le_natDigits n (by omega)
    have h2 : (10 : Nat) ^ k ≤ 10 ^ ((natDigits n).length - 1) :=
      Nat.pow_le_pow_right (by omega) (by omega)
    omega

theorem mem_natDigits_toNat (n : Nat) :
    ∀ c ∈ natDigits n, 48 ≤ c.toNat ∧ c.toNat ≤ 57 := by
  induction n using Nat.strong_induction_on with
  | _ n ih =>
    intro c hc
    rw [natDigits_eq] at hc
    by_cases h10 : n < 10
    · rw [if_pos h10] at hc
      simp only [List.mem_singleton] at hc
      subst hc
      rw [digitChar_toNat n h10]
      omega
    · rw [if_neg h10] at hc
      rcases List.mem_append.mp hc with hc | hc
      · exact ih (n / 10) (Nat.div_lt_self (by omega) (by omega)) c hc
      · simp only [List.mem_singleton] at hc
        subst hc
        rw [digitChar_toNat (n % 10) (Nat.mod_lt _ (by omega))]
        omega

/-! ### Characters: `Char.ofNat`, the whitespace class and `toLower` -/

theorem char_toNat_ofNat_valid (n : Nat) (h : n.isValidChar) :
    (Char.ofNat n).toNat = n := by
  rw [Char.ofNat, dif_pos h]
  rfl

/-- No code point in the printable-ASCII/Latin-1 band below `0xA0` is
JavaScript whitespace. -/
theorem isJsWhitespace_eq_false_of_ascii (c : Char) (h1 : 33 ≤ c.toNat)
    (h2 : c.toNat ≤ 159) : isJsWhitespace c = false := by
  have hs : ∀ x : Char, c.toNat ≠ x.toNat → (c == x) = false := by
    intro x hx
    rw [beq_eq_false_iff_ne]
    intro he
    exact hx (congrArg Char.toNat he)
  have hn : ∀ m : Nat, c.toNat ≠ m → (c.toNat == m) = false := by
    intro m hm
    rw [beq_eq_false_iff_ne]
    exact hm
  have e1 : (c == ' ') = false := hs ' ' (by intro hh; have h32 : c.toNat = 32 := hh; omega)
  have e2 : (c == '\t') = false := hs '\t' (by intro hh; have h9 : c.toNat = 9 := hh; omega)
  have e3 : (c == '\n') = false := hs '\n' (by intro hh; have h10 : c.toNat = 10 := hh; omega)
  have e4 : (c == '\r') = false := hs '\r' (by intro hh; have h13 : c.toNat = 13 := hh; omega)
  unfold isJsWhitespace
  rw [e1, e2, e3, e4, hn 11 (by omega), hn 12 (by omega), hn 0xA0 (by omega),
    hn 0x1680 (by omega), hn 0x2028 (by omega), hn 0x2029 (by omega),
    hn 0x202F (by omega), hn 0x205F (by omega), hn 0x3000 (by omega),
    hn 0xFEFF (by omega)]
  rw [decide_eq_false (by omega : ¬(0x2000 ≤ c.toNat))]
  simp

/-- Lower-casing never turns a non-whitespace character into whitespace. -/
theorem isJsWhitespace_toLower_eq_false (c : Char) (h : isJsWhitespace c = false) :
    isJsWhitespace c.toLower = false := by
  simp only [Char.toLower]
  by_cases hc : c.toNat ≥ 65 ∧ c.toNat ≤ 90
  · rw [if_pos hc]
    have hv : (c.toNat + 32).isValidChar := Or.inl (by omega)
    apply isJsWhitespace_eq_false_of_ascii
    · rw [char_toNat_ofNat_valid _ hv]; omega
    · rw [char_toNat_ofNat_valid _ hv]; omega
  · rw [if_neg hc]
    exact h

theorem mem_padZeros_natDigits_not_ws (w n : Nat) :
    ∀ c ∈ padZeros w (natDigits n), isJsWhitespace c = false := by
  intro c hc
  simp only [padZeros] at hc
  rcases List.mem_append.mp hc with hc | hc
  · rw [List.eq_of_mem_replicate hc]
    decide
  · obtain ⟨hl, hr⟩ := mem_natDigits_toNat n c hc
    exact isJsWhitespace_eq_false_of_ascii c (by omega) (by omega)

/-! ### The generated identity and the allocation loop -/

theorem gen_nim_eq (name : List Char) (order : Nat) (d : YMD) :
    (generateNimAndPassword name order d).nim = nimChars d order := rfl

theorem gen_username_eq (name : List Char) (order : Nat) (d : YMD) :
    (generateNimAndPassword name order d).username = nimChars d order := rfl

theorem gen_password_eq (name : List Char) (order : Nat) (d : YMD) :
    (generateNimAndPassword name order d).password =
      ((name.filter fun c => !isJsWhitespace c).map Char.toLower).take 7 ++
        padZeros 3 (natDigits order) := rfl

theorem nimChars_injective (d : YMD) : Function.Injective (nimChars d) := by
  intro a b h
  apply padZeros_natDigits_injective 3
  show padZeros 3 (natDigits a) = padZeros 3 (natDigits b)
  have h2 := congrArg (List.drop (dateChars d).length) h
  simpa [nimChars, List.drop_left] using h2

/-- Pigeonhole: among `used.card + 1` consecutive candidate orders, at
least one generates a NIM outside `used`. -/
theorem exists_fresh_nim (used : Finset (List Char)) (d : YMD) (base : Nat) :
    ∃ k, k ≤ used.card ∧ nimChars d (base + k) ∉ used := by
  by_contra hall
  push_neg at hall
  have hinj : Function.Injective fun k : Nat => nimChars d (base + k) := by
    intro a b hab
    have h3 := nimChars_injective d hab
    omega
  have hsub : (Finset.range (used.card + 1)).image (fun k => nimChars d (base + k))
      ⊆ used := by
    intro x hx
    rw [Finset.mem_image] at hx
    obtain ⟨k, hk, rfl⟩ := hx
    rw [Finset.mem_range] at hk
    exact hall k (by omega)
  have hcard := Finset.card_le_card hsub
  rw [Finset.card_image_of_injective _ hinj, Finset.card_range] at hcard
  omega

theorem findCandidateOrder_succ (un uu : Finset (List Char)) (name : List Char)
    (d : YMD) (fuel cand : Nat) :
    findCandidateOrder un uu name d (fuel + 1) cand =
      if nimChars d cand ∈ un ∨ nimChars d cand ∈ uu then
        findCandidateOrder un uu name d fuel (cand + 1)
      else cand := rfl

/-- If some candidate within the fuel window is free, the search returns a
free candidate. -/
theorem findCandidateOrder_free (un uu : Finset (List Char)) (name : List Char)
    (d : YMD) :
    ∀ fuel cand, (∃ k, k < fuel ∧ nimChars d (cand + k) ∉ un ∪ uu) →
      nimChars d (findCandidateOrder un uu name d fuel cand) ∉ un ∪ uu := by
  intro fuel
  induction fuel with
  | zero =>
    rintro cand ⟨k, hk, _⟩
    omega
  | succ fuel ih =>
    rintro cand ⟨k, hk, hfreek⟩
    rw [findCandidateOrder_succ]
    by_cases hc : nimChars d cand ∈ un ∨ nimChars d cand ∈ uu
    · rw [if_pos hc]
      apply ih
      have hk0 : k ≠ 0 := by
        rintro rfl
        simp only [Nat.add_zero] at hfreek
        exact hfreek (Finset.mem_union.mpr hc)
      refine ⟨k - 1, by omega, ?_⟩
      have harith : cand + 1 + (k - 1) = cand + k := by omega
      rw [harith]
      exact hfreek
    · rw [if_neg hc]
      intro hmem
      exact hc (Finset.mem_union.mp hmem)

/-- The fuel `(usedNims ∪ usedUsernames).card + 1` used by `allocateBatch`
always suffices: the candidate the search settles on is fresh for both
sets, exactly as the source's unbounded `while (true)` loop guarantees. -/
theorem findCandidateOrder_result_free (un uu : Finset (List Char))
    (name : List Char) (d : YMD) (base : Nat) :
    nimChars d (findCandidateOrder un uu name d ((un ∪ uu).card + 1) base)
      ∉ un ∪ uu := by
  apply findCandidateOrder_free
  obtain ⟨k, hk, hfreek⟩ := exists_fresh_nim (un ∪ uu) d base
  exact ⟨k, by omega, hfreek⟩

/-- Joint invariant of the allocation loop: every produced row is fresh
against the used sets passed in, the rows are pairwise distinct in NIM and
username, and the returned sets are the passed-in sets extended by exactly
the produced NIMs/usernames. -/
theorem allocateBatch_invariants (d : YMD) :
    ∀ (names : List (List Char)) (base : Nat) (un uu : Finset (List Char)),
      (∀ r ∈ (allocateBatch names base d un uu).1, r.nim ∉ un ∧ r.username ∉ uu) ∧
      List.Pairwise (fun a b => a.nim ≠ b.nim ∧ a.username ≠ b.username)
        (allocateBatch names base d un uu).1 ∧
      (allocateBatch names base d un uu).2.1 =
        un ∪ ((allocateBatch names base d un uu).1.map fun r => r.nim).toFinset ∧
      (allocateBatch names base d un uu).2.2 =
        uu ∪ ((allocateBatch names base d un uu).1.map fun r => r.username).toFinset := by
  intro names
  induction names with
  | nil =>
    intro base un uu
    simp [allocateBatch]
  | cons n rest ih =>
    intro base un uu
    by_cases hb : jsTrim n = []
    · simpa [allocateBatch, hb] using ih base un uu
    · have hfree := findCandidateOrder_result_free un uu (jsTrim n) d base
      simp only [allocateBatch, if_neg hb, gen_nim_eq, gen_username_eq]
      set ord := findCandidateOrder un uu (jsTrim n) d ((un ∪ uu).card + 1) base
        with hord
      rw [Finset.mem_union] at hfree
      push_neg at hfree
      obtain ⟨hfn, hfu⟩ := hfree
      obtain ⟨ih1, ih2, ih3, ih4⟩ :=
        ih (ord + 1) (insert (nimChars d ord) un) (insert (nimChars d ord) uu)
      refine ⟨?_, ?_, ?_, ?_⟩
      · intro r hr
        rcases List.mem_cons.mp hr with hr | hr
        · subst hr
          exact ⟨hfn, hfu⟩
        · obtain ⟨h1, h2⟩ := ih1 r hr
          exact ⟨fun hmem => h1 (Finset.mem_insert_of_mem hmem),
                 fun hmem => h2 (Finset.mem_insert_of_mem hmem)⟩
      · refine List.Pairwise.cons ?_ ih2
        intro b hb'
        obtain ⟨h1, h2⟩ := ih1 b hb'
        constructor
        · intro heq
          exact h1 (heq ▸ Finset.mem_insert_self _ _)
        · intro heq
          exact h2 (heq ▸ Finset.mem_insert_self _ _)
      · rw [ih3]
        simp [Finset.union_insert, Finset.insert_union]
      · rw [ih4]
        simp [Finset.union_insert, Finset.insert_union]

/-- C1: in every `allocateBatch` run no two returned rows share a NIM
(identifier) or a username, no returned NIM or username collides with the
respective used set as it stood at call start, and the used sets returned
by the loop are the initial ones extended by exactly the allocated NIMs
and usernames — in particular every allocated identifier and username is
in the set against which all later names are checked. -/
theorem allocateBatch_unique_and_fresh (names : List (List Char)) (base : Nat)
    (d : YMD) (un uu : Finset (List Char)) :
    List.Pairwise (fun a b => a.nim ≠ b.nim ∧ a.username ≠ b.username)
      (allocateBatch names base d un uu).1 ∧
    (∀ r ∈ (allocateBatch names base d un uu).1,
      (r.nim ∉ un ∧ r.username ∉ uu) ∧
      (r.nim ∈ (allocateBatch names base d un uu).2.1 ∧
       r.username ∈ (allocateBatch names base d un uu).2.2)) ∧
    (allocateBatch names base d un uu).2.1 =
      un ∪ ((allocateBatch names base d un uu).1.map fun r => r.nim).toFinset ∧
    (allocateBatch names base d un uu).2.2 =
      uu ∪ ((allocateBatch names base d un uu).1.map fun r => r.username).toFinset := by
  obtain ⟨h1, h2, h3, h4⟩ := allocateBatch_invariants d names base un uu
  refine ⟨h2, ?_, h3, h4⟩
  intro r hr
  refine ⟨h1 r hr, ?_, ?_⟩
  · rw [h3]
    apply Finset.mem_union_right
    rw [List.mem_toFinset, List.mem_map]
    exact ⟨r, hr, rfl⟩
  · rw [h4]
    apply Finset.mem_union_right
    rw [List.mem_toFinset, List.mem_map]
    exact ⟨r, hr, rfl⟩

/-- Instantiation of `allocateBatch_unique_and_fresh` on a two-name batch
starting from empty used sets. -/
theorem allocateBatch_unique_and_fresh_witness :
    List.Pairwise (fun a b => a.nim ≠ b.nim ∧ a.username ≠ b.username)
      (allocateBatch ["Udin Saputra".toList, "Siti".toList] 1 ⟨2025, 3, 7⟩ ∅ ∅).1 ∧
    (∀ r ∈ (allocateBatch ["Udin Saputra".toList, "Siti".toList] 1
        ⟨2025, 3, 7⟩ ∅ ∅).1,
      (r.nim ∉ (∅ : Finset (List Char)) ∧ r.username ∉ (∅ : Finset (List Char))) ∧
      (r.nim ∈ (allocateBatch ["Udin Saputra".toList, "Siti".toList] 1
          ⟨2025, 3, 7⟩ ∅ ∅).2.1 ∧
       r.username ∈ (allocateBatch ["Udin Saputra".toList, "Siti".toList] 1
          ⟨2025, 3, 7⟩ ∅ ∅).2.2)) ∧
    (allocateBatch ["Udin Saputra".toList, "Siti".toList] 1 ⟨2025, 3, 7⟩ ∅ ∅).2.1 =
      (∅ : Finset (List Char)) ∪
        ((allocateBatch ["Udin Saputra".toList, "Siti".toList] 1
          ⟨2025, 3, 7⟩ ∅ ∅).1.map fun r => r.nim).toFinset ∧
    (allocateBatch ["Udin Saputra".toList, "Siti".toList] 1 ⟨2025, 3, 7⟩ ∅ ∅).2.2 =
      (∅ : Finset (List Char)) ∪
        ((allocateBatch ["Udin Saputra".toList, "Siti".toList] 1
          ⟨2025, 3, 7⟩ ∅ ∅).1.map fun r => r.username).toFinset :=
  allocateBatch_unique_and_fresh ["Udin Saputra".toList, "Siti".toList] 1
    ⟨2025, 3, 7⟩ ∅ ∅

/-- C7: `allocateBatch` skips blank (whitespace-only) names entirely: the
output length is the number of non-blank input names, and every output
row carries a non-blank name, namely the trim of one of the inputs. -/
theorem allocateBatch_skips_blank_names (d : YMD) :
    ∀ (names : List (List Char)) (base : Nat) (un uu : Finset (List Char)),
      (allocateBatch names base d un uu).1.length =
        (names.countP fun s => !(jsTrim s).isEmpty) ∧
      ∀ r ∈ (allocateBatch names base d un uu).1,
        r.name ≠ [] ∧ ∃ s ∈ names, r.name = jsTrim s := by
  intro names
  induction names with
  | nil =>
    intro base un uu
    simp [allocateBatch]
  | cons n rest ih =>
    intro base un uu
    by_cases hb : jsTrim n = []
    · have hcount : (!(jsTrim n).isEmpty) = false := by
        simp [hb]
      obtain ⟨ihl, ihm⟩ := ih base un uu
      constructor
      · simpa [allocateBatch, hb, List.countP_cons, hcount] using ihl
      · intro r hr
        rw [allocateBatch, if_pos hb] at hr
        obtain ⟨hne, s, hs, hswap⟩ := ihm r hr
        exact ⟨hne, s, List.mem_cons_of_mem _ hs, hswap⟩
    · have hcount : (!(jsTrim n).isEmpty) = true := by
        simp [List.isEmpty_iff, hb]
      obtain ⟨ihl, ihm⟩ :=
        ih (findCandidateOrder un uu (jsTrim n) d ((un ∪ uu).card + 1) base + 1)
          (insert (nimChars d (findCandidateOrder un uu (jsTrim n) d
            ((un ∪ uu).card + 1) base)) un)
          (insert (nimChars d (findCandidateOrder un uu (jsTrim n) d
            ((un ∪ uu).card + 1) base)) uu)
      constructor
      · simp only [allocateBatch, if_neg hb, gen_nim_eq, gen_username_eq,
          List.length_cons, List.countP_cons, hcount]
        rw [ihl]
        simp
      · intro r hr
        simp only [allocateBatch, if_neg hb, gen_nim_eq, gen_username_eq] at hr
        rcases List.mem_cons.mp hr with hr | hr
        · subst hr
          exact ⟨hb, n, List.mem_cons_self _ _, rfl⟩
        · obtain ⟨hne, s, hs, hswap⟩ := ihm r hr
          exact ⟨hne, s, List.mem_cons_of_mem _ hs, hswap⟩

/-- Instantiation of `allocateBatch_skips_blank_names` on a batch with a
whitespace-only middle name. -/
theorem allocateBatch_skips_blank_names_witness :
    (allocateBatch ["Udin Saputra".toList, "   ".toList, "Siti".toList] 5
        ⟨2025, 3, 7⟩ ∅ ∅).1.length =
      (["Udin Saputra".toList, "   ".toList, "Siti".toList].countP
        fun s => !(jsTrim s).isEmpty) ∧
    ∀ r ∈ (allocateBatch ["Udin Saputra".toList, "   ".toList, "Siti".toList] 5
        ⟨2025, 3, 7⟩ ∅ ∅).1,
      r.name ≠ [] ∧
      ∃ s ∈ ["Udin Saputra".toList, "   ".toList, "Siti".toList], r.name = jsTrim s :=
  allocateBatch_skips_blank_names ⟨2025, 3, 7⟩
    ["Udin Saputra".toList, "   ".toList, "Siti".toList] 5 ∅ ∅

/-- C2: for a four-digit year (and calendar month/day), the generated NIM
is the 4-digit year, 2-digit zero-padded month and day, then the order
zero-padded to 3 digits; the username is the NIM verbatim; the password is
the first 7 characters of the whitespace-stripped, lower-cased name
followed by the same padded order. Concretely,
`generateNimAndPassword("Udin Saputra", 1, 2025-03-07)` yields NIM and
username `20250307001` and password `udinsap001`. -/
theorem generateNimAndPassword_spec :
    (∀ (name : List Char) (order : Nat) (d : YMD),
      1 ≤ order → 1000 ≤ d.year → d.year ≤ 9999 →
      1 ≤ d.month → d.month ≤ 12 → 1 ≤ d.day → d.day ≤ 31 →
      (generateNimAndPassword name order d).nim =
        padZeros 4 (natDigits d.year) ++ padZeros 2 (natDigits d.month) ++
          padZeros 2 (natDigits d.day) ++ padZeros 3 (natDigits order) ∧
      (padZeros 4 (natDigits d.year)).length = 4 ∧
      (padZeros 2 (natDigits d.month)).length = 2 ∧
      (padZeros 2 (natDigits d.day)).length = 2 ∧
      (generateNimAndPassword name order d).username =
        (generateNimAndPassword name order d).nim ∧
      (generateNimAndPassword name order d).password =
        ((name.filter fun c => !isJsWhitespace c).map Char.toLower).take 7 ++
          padZeros 3 (natDigits order)) ∧
    generateNimAndPassword "Udin Saputra".toList 1 ⟨2025, 3, 7⟩ =
      { nim := "20250307001".toList, password := "udinsap001".toList,
        username := "20250307001".toList } := by
  constructor
  · intro name order d ho hy1 hy2 hm1 hm2 hd1 hd2
    have hylen : 4 ≤ (natDigits d.year).length := by
      have := natDigits_length_ge 3 d.year (by simpa using hy1)
      omega
    have hylen' : (natDigits d.year).length ≤ 4 :=
      natDigits_length_le d.year 4 (by omega) (by omega)
    have hmlen : (natDigits d.month).length ≤ 2 :=
      natDigits_length_le d.month 2 (by omega) (by omega)
    have hdlen : (natDigits d.day).length ≤ 2 :=
      natDigits_length_le d.day 2 (by omega) (by omega)
    refine ⟨?_, ?_, ?_, ?_, rfl, rfl⟩
    · rw [gen_nim_eq, padZeros_of_length_ge 4 _ hylen]
      simp [nimChars, dateChars, List.append_assoc]
    · rw [padZeros_length]
      omega
    · rw [padZeros_length]
      omega
    · rw [padZeros_length]
      omega
  · decide

/-- Instantiation of `generateNimAndPassword_spec` for
name "Udin Saputra", order 1, date 2025-03-07. -/
theorem generateNimAndPassword_spec_witness :
    (generateNimAndPassword "Udin Saputra".toList 1 ⟨2025, 3, 7⟩).nim =
        padZeros 4 (natDigits 2025) ++ padZeros 2 (natDigits 3) ++
          padZeros 2 (natDigits 7) ++ padZeros 3 (natDigits 1) ∧
      (padZeros 4 (natDigits 2025)).length = 4 ∧
      (padZeros 2 (natDigits 3)).length = 2 ∧
      (padZeros 2 (natDigits 7)).length = 2 ∧
      (generateNimAndPassword "Udin Saputra".toList 1 ⟨2025, 3, 7⟩).username =
        (generateNimAndPassword "Udin Saputra".toList 1 ⟨2025, 3, 7⟩).nim ∧
      (generateNimAndPassword "Udin Saputra".toList 1 ⟨2025, 3, 7⟩).password =
        (("Udin Saputra".toList.filter fun c => !isJsWhitespace c).map
            Char.toLower).take 7 ++ padZeros 3 (natDigits 1) :=
  generateNimAndPassword_spec.1 "Udin Saputra".toList 1 ⟨2025, 3, 7⟩
    (by decide) (by decide) (by decide) (by decide) (by decide) (by decide)
    (by decide)

/-- C6 counterexample: a database already holding NIM `20250307999` makes
`getNextOrderForToday` start at sequence 1000, and the allocation loop
then produces the password `udinsap1000` — 11 characters, with a 4-digit
suffix — so the claimed 10-character bound (and exactly-3-digit suffix)
fails for an allocated sequence number. -/
theorem password_bound_counterexample :
    getNextOrderForToday
        [{ role := "mahasiswa".toList, nim := some "20250307999".toList }]
        ⟨2025, 3, 7⟩ = 1000 ∧
    ((allocateBatch ["Udin Saputra".toList] 1000 ⟨2025, 3, 7⟩
        {"20250307999".toList} {"20250307999".toList}).1.map
      fun r => r.password) = ["udinsap1000".toList] ∧
    ¬ ("udinsap1000".toList.length ≤ 10) ∧
    (padZeros 3 (natDigits 1000)).length ≠ 3 := by
  refine ⟨by decide, by decide, by decide, by decide⟩

/-- C6 (amended): the password never contains whitespace and always ends
in the order zero-padded to (at least) 3 digits, whose digits read back as
the order; and for sequence numbers up to 999 — after which the padded
order grows beyond 3 characters — the password has at most 10 characters
and its suffix is exactly 3 digits long. -/
theorem password_shape (name : List Char) (order : Nat) (d : YMD) :
    (∀ c ∈ (generateNimAndPassword name order d).password,
      isJsWhitespace c = false) ∧
    (generateNimAndPassword name order d).password =
      ((name.filter fun c => !isJsWhitespace c).map Char.toLower).take 7 ++
        padZeros 3 (natDigits order) ∧
    digitsToNat (padZeros 3 (natDigits order)) = order ∧
    (order ≤ 999 →
      (generateNimAndPassword name order d).password.length ≤ 10 ∧
      (padZeros 3 (natDigits order)).length = 3) := by
  refine ⟨?_, rfl, ?_, ?_⟩
  · intro c hc
    rw [gen_password_eq] at hc
    rcases List.mem_append.mp hc with hc | hc
    · have hmem := List.take_subset 7 _ hc
      obtain ⟨c', hcf, hlow⟩ := List.mem_map.mp hmem
      have hf := (List.mem_filter.mp hcf).2
      rw [← hlow]
      exact isJsWhitespace_toLower_eq_false c' (by simpa using hf)
    · exact mem_padZeros_natDigits_not_ws 3 order c hc
  · rw [digitsToNat_padZeros, digitsToNat_natDigits]
  · intro hle
    have hlen : (natDigits order).length ≤ 3 :=
      natDigits_length_le order 3 (by omega) (by omega)
    constructor
    · rw [gen_password_eq, List.length_append, padZeros_length]
      have htake : (((name.filter fun c => !isJsWhitespace c).map
          Char.toLower).take 7).length ≤ 7 := by
        simp [List.length_take]
      omega
    · rw [padZeros_length]
      omega

/-- Instantiation of `password_shape` for name "Udin Saputra", order 1. -/
theorem password_shape_witness :
    (generateNimAndPassword "Udin Saputra".toList 1 ⟨2025, 3, 7⟩).password.length
        ≤ 10 ∧
    (padZeros 3 (natDigits 1)).length = 3 :=
  (password_shape "Udin Saputra".toList 1 ⟨2025, 3, 7⟩).2.2.2 (by decide)

/-! ### `getNextOrderForToday` -/

/-- The loop body either leaves the accumulator alone (when the user
contributes no parsed suffix) or takes the maximum with its suffix. -/
theorem nextOrderStep_eq (d : YMD) (a : Int) (u : User) :
    nextOrderStep d a u =
      match nimSuffixValue d u with
      | none => a
      | some n => if a < n then n else a := by
  obtain ⟨role, nim⟩ := u
  simp only [nextOrderStep, nimSuffixValue]
  by_cases h1 : role ≠ "mahasiswa".toList
  · rw [if_pos h1, if_pos h1]
  · rw [if_neg h1, if_neg h1]
    cases nim with
    | none => rfl
    | some s =>
      dsimp only
      by_cases h2 : s = []
      · rw [if_pos h2, if_pos h2]
      · rw [if_neg h2, if_neg h2]
        by_cases h3 : ¬ (dateChars d).isPrefixOf (jsTrim s)
        · rw [if_pos h3, if_pos h3]
        · rw [if_neg h3, if_neg h3]
          by_cases h4 : ((jsTrim s).drop (dateChars d).length).length = 0
          · rw [if_pos h4, if_pos h4]
          · rw [if_neg h4, if_neg h4]

theorem foldl_nextOrderStep (d : YMD) :
    ∀ (users : List User) (a : Int),
      users.foldl (nextOrderStep d) a =
        (users.filterMap (nimSuffixValue d)).foldl max a := by
  intro users
  induction users with
  | nil => intro a; rfl
  | cons u rest ih =>
    intro a
    rw [List.foldl_cons, List.filterMap_cons]
    cases hv : nimSuffixValue d u with
    | none =>
      have h : nextOrderStep d a u = a := by rw [nextOrderStep_eq, hv]
      rw [h]
      exact ih a
    | some n =>
      have h : nextOrderStep d a u = if a < n then n else a := by
        rw [nextOrderStep_eq, hv]
      rw [h, List.foldl_cons]
      have hmax : (if a < n then n else a) = max a n := by
        rcases le_or_lt n a with hle | hlt
        · rw [if_neg (by omega), max_eq_left hle]
        · rw [if_pos hlt, max_eq_right (le_of_lt hlt)]
      rw [hmax]
      exact ih _

theorem getNextOrderForToday_eq_filterMap (users : List User) (d : YMD) :
    getNextOrderForToday users d =
      ((users.filterMap (nimSuffixValue d)).foldl max 0) + 1 := by
  unfold getNextOrderForToday
  rw [foldl_nextOrderStep]

theorem foldl_max_bounds (l : List Int) :
    ∀ a, a ≤ l.foldl max a ∧ ∀ v ∈ l, v ≤ l.foldl max a := by
  induction l with
  | nil => simp
  | cons x rest ih =>
    intro a
    rw [List.foldl_cons]
    obtain ⟨h1, h2⟩ := ih (max a x)
    refine ⟨le_trans (le_max_left a x) h1, ?_⟩
    intro v hv
    rcases List.mem_cons.mp hv with rfl | hv
    · exact le_trans (le_max_right a v) h1
    · exact h2 v hv

theorem foldl_max_mem (l : List Int) :
    ∀ a, l.foldl max a ∈ l ∨ l.foldl max a = a := by
  induction l with
  | nil =>
    intro a
    right
    rfl
  | cons x rest ih =>
    intro a
    rw [List.foldl_cons]
    rcases ih (max a x) with h | h
    · left
      exact List.mem_cons_of_mem _ h
    · rcases le_or_lt a x with hle | hlt
      · left
        rw [h, max_eq_right hle]
        exact List.mem_cons_self _ _
      · right
        rw [h, max_eq_left (le_of_lt hlt)]

/-- C3: `getNextOrderForToday` returns 1 when no (trimmed) stored NIM
starts with the date prefix; when students do contribute parsed suffixes
(all nonnegative, as digit suffixes are), it returns one more than the
greatest contributed suffix; and on the spec's example list for
2025-03-07 it returns 3. -/
theorem getNextOrderForToday_spec :
    (∀ (users : List User) (d : YMD),
      (∀ u ∈ users, ∀ s, u.nim = some s →
        ¬ (dateChars d).isPrefixOf (jsTrim s)) →
      getNextOrderForToday users d = 1) ∧
    (∀ (users : List User) (d : YMD),
      users.filterMap (nimSuffixValue d) ≠ [] →
      (∀ v ∈ users.filterMap (nimSuffixValue d), 0 ≤ v) →
      ∃ m, m ∈ users.filterMap (nimSuffixValue d) ∧
        (∀ v ∈ users.filterMap (nimSuffixValue d), v ≤ m) ∧
        getNextOrderForToday users d = m + 1) ∧
    getNextOrderForToday
      [{ role := "mahasiswa".toList, nim := some "20250307001".toList },
       { role := "mahasiswa".toList, nim := some "20250307002".toList },
       { role := "mahasiswa".toList, nim := some "20250101999".toList }]
      ⟨2025, 3, 7⟩ = 3 := by
  refine ⟨?_, ?_, by decide⟩
  · intro users d h
    have hemp : users.filterMap (nimSuffixValue d) = [] := by
      rw [List.filterMap_eq_nil_iff]
      intro u hu
      simp only [nimSuffixValue]
      by_cases h1 : u.role ≠ "mahasiswa".toList
      · rw [if_pos h1]
      · rw [if_neg h1]
        cases hnim : u.nim with
        | none => rfl
        | some s =>
          dsimp only
          by_cases h2 : s = []
          · rw [if_pos h2]
          · rw [if_neg h2]
            have h3 := h u hu s hnim
            rw [if_pos h3]
    rw [getNextOrderForToday_eq_filterMap, hemp]
    rfl
  · intro users d hne hpos
    obtain ⟨hstart, hub⟩ := foldl_max_bounds (users.filterMap (nimSuffixValue d)) 0
    rcases foldl_max_mem (users.filterMap (nimSuffixValue d)) 0 with hmem | heq
    · exact ⟨_, hmem, hub, by rw [getNextOrderForToday_eq_filterMap]⟩
    · obtain ⟨v, hv⟩ := List.exists_mem_of_ne_nil _ hne
      have h1 : v ≤ 0 := heq ▸ hub v hv
      have h2 : 0 ≤ v := hpos v hv
      have hv0 : v = 0 := le_antisymm h1 h2
      refine ⟨0, hv0 ▸ hv, ?_, ?_⟩
      · intro w hw
        have := hub w hw
        omega
      · rw [getNextOrderForToday_eq_filterMap, heq]

/-- Instantiations of `getNextOrderForToday_spec`: a list whose only NIM
belongs to another day yields 1, and the spec's example list yields
`max + 1` for a maximal contributed suffix. -/
theorem getNextOrderForToday_spec_witness :
    getNextOrderForToday
        [{ role := "mahasiswa".toList, nim := some "20240101001".toList }]
        ⟨2025, 3, 7⟩ = 1 ∧
    ∃ m, m ∈ ([{ role := "mahasiswa".toList, nim := some "20250307001".toList },
        { role := "mahasiswa".toList, nim := some "20250307002".toList },
        { role := "mahasiswa".toList, nim := some "20250101999".toList }].filterMap
          (nimSuffixValue ⟨2025, 3, 7⟩)) ∧
      (∀ v ∈ ([{ role := "mahasiswa".toList, nim := some "20250307001".toList },
          { role := "mahasiswa".toList, nim := some "20250307002".toList },
          { role := "mahasiswa".toList, nim := some "20250101999".toList }].filterMap
            (nimSuffixValue ⟨2025, 3, 7⟩)), v ≤ m) ∧
      getNextOrderForToday
        [{ role := "mahasiswa".toList, nim := some "20250307001".toList },
         { role := "mahasiswa".toList, nim := some "20250307002".toList },
         { role := "mahasiswa".toList, nim := some "20250101999".toList }]
        ⟨2025, 3, 7⟩ = m + 1 := by
  constructor
  · apply getNextOrderForToday_spec.1
    intro u hu s hs
    rw [List.mem_singleton] at hu
    subst hu
    cases hs
    decide
  · exact getNextOrderForToday_spec.2.1 _ _ (by decide) (by decide)

/-! ### `apiRequest`: URL building -/

theorem head_dropWhile_eq_false (p : Char → Bool) (l : List Char) (c : Char)
    (h : (l.dropWhile p).head? = some c) : p c = false := by
  induction l with
  | nil => simp at h
  | cons x t ih =>
    rw [List.dropWhile_cons] at h
    by_cases hp : p x
    · rw [if_pos hp] at h
      exact ih h
    · rw [if_neg hp] at h
      simp only [List.head?_cons, Option.some.injEq] at h
      subst h
      simpa using hp

theorem takeWhile_slash_eq_replicate (l : List Char) :
    l.takeWhile (fun c => c == '/') =
      List.replicate (l.takeWhile (fun c => c == '/')).length '/' := by
  apply List.eq_replicate_of_mem
  intro b hb
  have := List.mem_takeWhile_imp hb
  simpa using this

/-- C10: a path starting with `"http"` is used verbatim as the request URL
(the base URL is not prepended); otherwise the URL is the base with its
trailing slashes stripped, one `/`, and the path with its leading slashes
stripped — so exactly one slash sits at the join point. -/
theorem joinUrl_spec :
    (∀ (baseUrl p : List Char), "http".toList.isPrefixOf p = true →
      joinUrl baseUrl p = p) ∧
    (∀ (baseUrl p : List Char), "http".toList.isPrefixOf p = false →
      joinUrl baseUrl p =
        dropTrailingSlashes baseUrl ++ '/' :: dropLeadingSlashes p ∧
      (∃ k, baseUrl = dropTrailingSlashes baseUrl ++ List.replicate k '/') ∧
      (∃ j, p = List.replicate j '/' ++ dropLeadingSlashes p) ∧
      (dropTrailingSlashes baseUrl).getLast? ≠ some '/' ∧
      (dropLeadingSlashes p).head? ≠ some '/') := by
  constructor
  · intro baseUrl p h
    unfold joinUrl
    rw [if_pos h]
  · intro baseUrl p h
    refine ⟨?_, ?_, ?_, ?_, ?_⟩
    · unfold joinUrl
      rw [if_neg (by rw [h]; decide)]
    · refine ⟨(baseUrl.reverse.takeWhile (fun c => c == '/')).length, ?_⟩
      conv_lhs => rw [← List.reverse_reverse baseUrl,
        ← List.takeWhile_append_dropWhile (fun c => c == '/') baseUrl.reverse]
      rw [List.reverse_append]
      unfold dropTrailingSlashes
      congr 1
      rw [takeWhile_slash_eq_replicate baseUrl.reverse, List.reverse_replicate,
        List.length_replicate]
    · refine ⟨(p.takeWhile (fun c => c == '/')).length, ?_⟩
      conv_lhs => rw [← List.takeWhile_append_dropWhile (fun c => c == '/') p]
      unfold dropLeadingSlashes
      congr 1
      exact takeWhile_slash_eq_replicate p
    · unfold dropTrailingSlashes
      rw [List.getLast?_reverse]
      intro hc
      have := head_dropWhile_eq_false _ _ _ hc
      simp at this
    · unfold dropLeadingSlashes
      intro hc
      have := head_dropWhile_eq_false _ _ _ hc
      simp at this

/-- Instantiation of `joinUrl_spec`: an absolute `http` path is kept
verbatim, and a relative path is joined to the base with one slash. -/
theorem joinUrl_spec_witness :
    joinUrl "https://backend-lms.farros.space".toList "http://elsewhere/x".toList =
      "http://elsewhere/x".toList ∧
    (joinUrl "https://backend-lms.farros.space/".toList "/api/users".toList =
      dropTrailingSlashes "https://backend-lms.farros.space/".toList ++
        '/' :: dropLeadingSlashes "/api/users".toList ∧
    (∃ k, "https://backend-lms.farros.space/".toList =
      dropTrailingSlashes "https://backend-lms.farros.space/".toList ++
        List.replicate k '/') ∧
    (∃ j, "/api/users".toList =
      List.replicate j '/' ++ dropLeadingSlashes "/api/users".toList) ∧
    (dropTrailingSlashes "https://backend-lms.farros.space/".toList).getLast? ≠
      some '/' ∧
    (dropLeadingSlashes "/api/users".toList).head? ≠ some '/') :=
  ⟨joinUrl_spec.1 _ _ (by decide), joinUrl_spec.2 _ _ (by decide)⟩

/-- C5: a query entry whose value is null/undefined or the empty string is
dropped entirely — removing it from the query object leaves the built URL
unchanged, so it contributes not even a bare `key=`; a surviving string
entry is appended URL-encoded as `key=value` after `?`; and the spec's
scenario `{ search: "", role: "dosen" }` produces exactly `?role=dosen`. -/
theorem buildRequestUrl_query_spec :
    (∀ (baseUrl p : List Char) (q1 q2 : List (List Char × QueryValue))
        (k : List Char) (v : QueryValue),
      isSkippedQueryValue v = true →
      buildRequestUrl baseUrl p (some (q1 ++ (k, v) :: q2)) =
        buildRequestUrl baseUrl p (some (q1 ++ q2))) ∧
    (∀ (baseUrl p k s : List Char), s ≠ [] →
      (joinUrl baseUrl p).contains '?' = false →
      buildRequestUrl baseUrl p (some [(k, QueryValue.str s)]) =
        joinUrl baseUrl p ++ '?' :: (formUrlEncode k ++ '=' :: formUrlEncode s)) ∧
    buildRequestUrl "https://backend-lms.farros.space".toList "/api/users".toList
        (some [("search".toList, QueryValue.str []),
               ("role".toList, QueryValue.str "dosen".toList)]) =
      "https://backend-lms.farros.space/api/users?role=dosen".toList := by
  refine ⟨?_, ?_, by decide⟩
  · intro baseUrl p q1 q2 k v hv
    have hfilter : (q1 ++ (k, v) :: q2).filter (fun e => !isSkippedQueryValue e.2) =
        (q1 ++ q2).filter (fun e => !isSkippedQueryValue e.2) := by
      rw [List.filter_append, List.filter_cons, List.filter_append]
      simp [hv]
    have hqs : buildQueryString (q1 ++ (k, v) :: q2) = buildQueryString (q1 ++ q2) := by
      simp only [buildQueryString, hfilter]
    simp only [buildRequestUrl]
    rw [if_neg (by simp : ¬((q1 ++ (k, v) :: q2).length = 0))]
    by_cases h0 : (q1 ++ q2).length = 0
    · rw [if_pos h0]
      obtain ⟨h1, h2⟩ := List.append_eq_nil.mp (List.length_eq_zero.mp h0)
      subst h1
      subst h2
      rw [hqs]
      rw [if_pos (by simp [buildQueryString, List.intercalate])]
    · rw [if_neg h0, hqs]
  · intro baseUrl p k s hs hq
    have hskip : isSkippedQueryValue (QueryValue.str s) = false := by
      cases s with
      | nil => exact absurd rfl hs
      | cons c t => rfl
    have hqs : buildQueryString [(k, QueryValue.str s)] =
        formUrlEncode k ++ '=' :: formUrlEncode s := by
      simp [buildQueryString, List.filter_cons, hskip, List.intercalate,
        queryValueChars]
    simp only [buildRequestUrl]
    rw [if_neg (by simp : ¬(([(k, QueryValue.str s)] : List (List Char × QueryValue)).length = 0))]
    rw [hqs, if_neg (by simp), if_neg (by rw [hq]; decide)]

/-- Instantiation of `buildRequestUrl_query_spec`: dropping an
empty-string entry, and appending an encoded surviving entry. -/
theorem buildRequestUrl_query_spec_witness :
    buildRequestUrl "https://backend-lms.farros.space".toList "/api/users".toList
        (some ([] ++ ("search".toList, QueryValue.str []) ::
          [("role".toList, QueryValue.str "dosen".toList)])) =
      buildRequestUrl "https://backend-lms.farros.space".toList "/api/users".toList
        (some ([] ++ [("role".toList, QueryValue.str "dosen".toList)])) ∧
    buildRequestUrl "https://backend-lms.farros.space".toList "/api/users".toList
        (some [("role".toList, QueryValue.str "dosen".toList)]) =
      joinUrl "https://backend-lms.farros.space".toList "/api/users".toList ++
        '?' :: (formUrlEncode "role".toList ++ '=' ::
          formUrlEncode "dosen".toList) :=
  ⟨buildRequestUrl_query_spec.1 "https://backend-lms.farros.space".toList
      "/api/users".toList [] [("role".toList, QueryValue.str "dosen".toList)]
      "search".toList (QueryValue.str []) (by decide),
   buildRequestUrl_query_spec.2.1 "https://backend-lms.farros.space".toList
      "/api/users".toList "role".toList "dosen".toList (by decide) (by decide)⟩

/-! ### `apiRequest`: response handling -/

theorem isJsonResponse_eq_getD (r : HttpResponse) :
    isJsonResponse r =
      hasSubstring "application/json".toList (r.contentType.getD []) := by
  obtain ⟨status, ct, body⟩ := r
  cases ct <;> rfl

theorem responseDataOf_parse_failed (r : HttpResponse) (h : r.jsonBody = none) :
    responseDataOf r = Json.null := by
  unfold responseDataOf
  rw [h]
  split <;> rfl

theorem responseDataOf_not_json (r : HttpResponse)
    (h : isJsonResponse r = false) : responseDataOf r = Json.null := by
  unfold responseDataOf
  rw [h]
  rfl

theorem responseDataOf_json (r : HttpResponse) (j : Json)
    (h1 : isJsonResponse r = true) (h2 : r.jsonBody = some j) :
    responseDataOf r = j := by
  unfold responseDataOf
  rw [h1, h2]
  rfl

theorem errorMessageOf_message_field (r : HttpResponse)
    (fields : List (List Char × Json)) (s : List Char)
    (h1 : isJsonResponse r = true) (h2 : r.jsonBody = some (Json.obj fields))
    (h3 : jsGetField (Json.obj fields) "message".toList = some (Json.str s))
    (h4 : s ≠ []) : errorMessageOf r = s := by
  have hrd := responseDataOf_json r _ h1 h2
  have hse : s.isEmpty = false := by
    cases s with
    | nil => exact absurd rfl h4
    | cons c t => rfl
  unfold errorMessageOf
  rw [hrd, h1, h3]
  simp [jsTruthy, jsTypeofObject, jsTruthyOpt, jsNullish, jsToString, hse]

theorem errorMessageOf_error_field (r : HttpResponse)
    (fields : List (List Char × Json)) (s : List Char)
    (h1 : isJsonResponse r = true) (h2 : r.jsonBody = some (Json.obj fields))
    (h3 : jsGetField (Json.obj fields) "message".toList = none)
    (h3' : jsGetField (Json.obj fields) "error".toList = some (Json.str s))
    (h4 : s ≠ []) : errorMessageOf r = s := by
  have hrd := responseDataOf_json r _ h1 h2
  have hse : s.isEmpty = false := by
    cases s with
    | nil => exact absurd rfl h4
    | cons c t => rfl
  unfold errorMessageOf
  rw [hrd, h1, h3, h3']
  simp [jsTruthy, jsTypeofObject, jsTruthyOpt, jsNullish, jsToString, hse]

theorem errorMessageOf_no_fields (r : HttpResponse)
    (fields : List (List Char × Json))
    (h1 : isJsonResponse r = true) (h2 : r.jsonBody = some (Json.obj fields))
    (h3 : jsGetField (Json.obj fields) "message".toList = none)
    (h3' : jsGetField (Json.obj fields) "error".toList = none) :
    errorMessageOf r =
      "Request failed with status ".toList ++ natDigits r.status := by
  have hrd := responseDataOf_json r _ h1 h2
  unfold errorMessageOf
  rw [hrd, h1, h3, h3']
  simp [jsTruthyOpt]

/-- C8: a body that fails to parse as JSON (under a JSON content type) is
treated as `null` — on a 2xx status the call returns `null` instead of
raising a parse error; a non-JSON content type likewise makes the body
`null`, on success and on failure alike. -/
theorem handleResponse_null_body_spec :
    (∀ r : HttpResponse,
      hasSubstring "application/json".toList (r.contentType.getD []) = true →
      r.jsonBody = none → 200 ≤ r.status → r.status < 300 →
      handleResponse r = Except.ok Json.null) ∧
    (∀ r : HttpResponse,
      hasSubstring "application/json".toList (r.contentType.getD []) = false →
      200 ≤ r.status → r.status < 300 →
      handleResponse r = Except.ok Json.null) ∧
    (∀ r : HttpResponse,
      ¬ (200 ≤ r.status ∧ r.status < 300) →
      (hasSubstring "application/json".toList (r.contentType.getD []) = false ∨
        r.jsonBody = none) →
      ∃ e : ApiError, handleResponse r = Except.error e ∧ e.data = Json.null) := by
  refine ⟨?_, ?_, ?_⟩
  · intro r h1 h2 h3 h4
    unfold handleResponse
    rw [if_pos ⟨h3, h4⟩, responseDataOf_parse_failed r h2]
  · intro r h1 h3 h4
    have hJ : isJsonResponse r = false := by
      rw [isJsonResponse_eq_getD]
      exact h1
    unfold handleResponse
    rw [if_pos ⟨h3, h4⟩, responseDataOf_not_json r hJ]
  · intro r hnot hor
    unfold handleResponse
    rw [if_neg hnot]
    refine ⟨_, rfl, ?_⟩
    show responseDataOf r = Json.null
    rcases hor with h | h
    · exact responseDataOf_not_json r (by rw [isJsonResponse_eq_getD]; exact h)
    · exact responseDataOf_parse_failed r h

/-- Instantiation of `handleResponse_null_body_spec`: a 204 with a broken
JSON body, a 200 with an HTML body, and a 500 with a broken JSON body. -/
theorem handleResponse_null_body_spec_witness :
    handleResponse ⟨204, some "application/json".toList, none⟩ =
      Except.ok Json.null ∧
    handleResponse ⟨200, some "text/html".toList,
      some (Json.str "oops".toList)⟩ = Except.ok Json.null ∧
    ∃ e : ApiError,
      handleResponse ⟨500, some "application/json".toList, none⟩ =
        Except.error e ∧ e.data = Json.null :=
  ⟨handleResponse_null_body_spec.1 ⟨204, some "application/json".toList, none⟩
      (by decide) rfl (by decide) (by decide),
   handleResponse_null_body_spec.2.1 ⟨200, some "text/html".toList,
      some (Json.str "oops".toList)⟩ (by decide) (by decide) (by decide),
   handleResponse_null_body_spec.2.2 ⟨500, some "application/json".toList, none⟩
      (by decide) (Or.inr rfl)⟩

/-- C4: every non-2xx response makes `handleResponse` produce an error
(never a normal return) carrying the HTTP status and the parsed body; the
message prefers a nonempty string `message` field, then a nonempty string
`error` field, and otherwise is the generic
`Request failed with status <code>` text; a 401 with body
`{ "message": "Unauthorized" }` yields exactly `Unauthorized` with
status 401. -/
theorem handleResponse_error_spec :
    (∀ r : HttpResponse, ¬ (200 ≤ r.status ∧ r.status < 300) →
      ∃ e : ApiError, handleResponse r = Except.error e ∧ e.status = r.status) ∧
    (∀ (status : Nat) (ctv : List Char) (j : Json),
      ¬ (200 ≤ status ∧ status < 300) →
      hasSubstring "application/json".toList ctv = true →
      ∃ e : ApiError,
        handleResponse ⟨status, some ctv, some j⟩ = Except.error e ∧
        e.status = status ∧ e.data = j) ∧
    (∀ (status : Nat) (ctv : List Char) (fields : List (List Char × Json))
        (s : List Char),
      ¬ (200 ≤ status ∧ status < 300) →
      hasSubstring "application/json".toList ctv = true →
      jsGetField (Json.obj fields) "message".toList = some (Json.str s) →
      s ≠ [] →
      handleResponse ⟨status, some ctv, some (Json.obj fields)⟩ =
        Except.error ⟨s, status, Json.obj fields⟩) ∧
    (∀ (status : Nat) (ctv : List Char) (fields : List (List Char × Json))
        (s : List Char),
      ¬ (200 ≤ status ∧ status < 300) →
      hasSubstring "application/json".toList ctv = true →
      jsGetField (Json.obj fields) "message".toList = none →
      jsGetField (Json.obj fields) "error".toList = some (Json.str s) →
      s ≠ [] →
      handleResponse ⟨status, some ctv, some (Json.obj fields)⟩ =
        Except.error ⟨s, status, Json.obj fields⟩) ∧
    (∀ (status : Nat) (ctv : List Char) (fields : List (List Char × Json)),
      ¬ (200 ≤ status ∧ status < 300) →
      hasSubstring "application/json".toList ctv = true →
      jsGetField (Json.obj fields) "message".toList = none →
      jsGetField (Json.obj fields) "error".toList = none →
      handleResponse ⟨status, some ctv, some (Json.obj fields)⟩ =
        Except.error ⟨"Request failed with status ".toList ++ natDigits status,
          status, Json.obj fields⟩) ∧
    handleResponse ⟨401, some "application/json".toList,
        some (Json.obj [("message".toList, Json.str "Unauthorized".toList)])⟩ =
      Except.error ⟨"Unauthorized".toList, 401,
        Json.obj [("message".toList, Json.str "Unauthorized".toList)]⟩ := by
  refine ⟨?_, ?_, ?_, ?_, ?_, by rfl⟩
  · intro r hnot
    unfold handleResponse
    rw [if_neg hnot]
    exact ⟨_, rfl, rfl⟩
  · intro status ctv j hnot hct
    unfold handleResponse
    rw [if_neg hnot]
    refine ⟨_, rfl, rfl, ?_⟩
    exact responseDataOf_json ⟨status, some ctv, some j⟩ j hct rfl
  · intro status ctv fields s hnot hct hmsg hs
    unfold handleResponse
    rw [if_neg hnot]
    rw [errorMessageOf_message_field ⟨status, some ctv, some (Json.obj fields)⟩
        fields s hct rfl hmsg hs,
      responseDataOf_json ⟨status, some ctv, some (Json.obj fields)⟩
        (Json.obj fields) hct rfl]
  · intro status ctv fields s hnot hct hmsg herr hs
    unfold handleResponse
    rw [if_neg hnot]
    rw [errorMessageOf_error_field ⟨status, some ctv, some (Json.obj fields)⟩
        fields s hct rfl hmsg herr hs,
      responseDataOf_json ⟨status, some ctv, some (Json.obj fields)⟩
        (Json.obj fields) hct rfl]
  · intro status ctv fields hnot hct hmsg herr
    unfold handleResponse
    rw [if_neg hnot]
    rw [errorMessageOf_no_fields ⟨status, some ctv, some (Json.obj fields)⟩
        fields hct rfl hmsg herr,
      responseDataOf_json ⟨status, some ctv, some (Json.obj fields)⟩
        (Json.obj fields) hct rfl]

/-- Instantiation of `handleResponse_error_spec`: the 401 `Unauthorized`
scenario for the general parts, a body with only an `error` field, and a
bodiless 500 getting the generic message. -/
theorem handleResponse_error_spec_witness :
    (∃ e : ApiError,
      handleResponse ⟨401, some "application/json".toList,
          some (Json.obj [("message".toList, Json.str "Unauthorized".toList)])⟩ =
        Except.error e ∧ e.status = 401) ∧
    (∃ e : ApiError,
      handleResponse ⟨401, some "application/json".toList,
          some (Json.obj [("message".toList, Json.str "Unauthorized".toList)])⟩ =
        Except.error e ∧ e.status = 401 ∧
        e.data = Json.obj [("message".toList, Json.str "Unauthorized".toList)]) ∧
    handleResponse ⟨401, some "application/json".toList,
        some (Json.obj [("message".toList, Json.str "Unauthorized".toList)])⟩ =
      Except.error ⟨"Unauthorized".toList, 401,
        Json.obj [("message".toList, Json.str "Unauthorized".toList)]⟩ ∧
    handleResponse ⟨403, some "application/json".toList,
        some (Json.obj [("error".toList, Json.str "Forbidden".toList)])⟩ =
      Except.error ⟨"Forbidden".toList, 403,
        Json.obj [("error".toList, Json.str "Forbidden".toList)]⟩ ∧
    handleResponse ⟨500, some "application/json".toList,
        some (Json.obj [])⟩ =
      Except.error ⟨"Request failed with status ".toList ++ natDigits 500,
        500, Json.obj []⟩ :=
  ⟨handleResponse_error_spec.1 ⟨401, some "application/json".toList,
      some (Json.obj [("message".toList, Json.str "Unauthorized".toList)])⟩
      (by decide),
   handleResponse_error_spec.2.1 401 "application/json".toList
      (Json.obj [("message".toList, Json.str "Unauthorized".toList)])
      (by decide) (by decide),
   handleResponse_error_spec.2.2.1 401 "application/json".toList
      [("message".toList, Json.str "Unauthorized".toList)]
      "Unauthorized".toList (by decide) (by decide) rfl (by decide),
   handleResponse_error_spec.2.2.2.1 403 "application/json".toList
      [("error".toList, Json.str "Forbidden".toList)]
      "Forbidden".toList (by decide) (by decide) rfl rfl (by decide),
   handleResponse_error_spec.2.2.2.2.1 500 "application/json".toList []
      (by decide) (by decide) rfl rfl⟩


/-! ### `apiRequest`: header assembly -/

theorem jsObjectGet_set_same (m : List (List Char × List Char))
    (k v : List Char) : jsObjectGet (jsObjectSet m k v) k = some v := by
  induction m with
  | nil => simp [jsObjectSet, jsObjectGet]
  | cons e rest ih =>
    by_cases he : e.1 = k
    · simp [jsObjectSet, jsObjectGet, he]
    · have hstep : jsObjectSet (e :: rest) k v = e :: jsObjectSet rest k v := by
        unfold jsObjectSet
        rw [List.find?_cons_of_neg _ (by simpa using he)]
        by_cases h2 : (rest.find? fun x => x.1 = k).isSome
        · rw [if_pos h2, if_pos h2, List.map_cons]
          congr 1
          rw [if_neg he]
        · rw [if_neg h2, if_neg h2, List.cons_append]
      rw [hstep]
      unfold jsObjectGet
      rw [List.find?_cons_of_neg _ (by simpa using he)]
      exact ih

theorem jsObjectGet_map_overwrite_ne (m : List (List Char × List Char))
    (k v k' : List Char) (hk : k' ≠ k) :
    jsObjectGet (m.map fun e => if e.1 = k then (e.1, v) else e) k' =
      jsObjectGet m k' := by
  induction m with
  | nil => rfl
  | cons e rest ih =>
    rw [List.map_cons]
    by_cases he : e.1 = k
    · have he' : ¬ (e.1 = k') := by
        rw [he]
        exact Ne.symm hk
      rw [if_pos he]
      unfold jsObjectGet
      rw [List.find?_cons_of_neg _ (by simpa using he'),
        List.find?_cons_of_neg _ (by simpa using he')]
      exact ih
    · rw [if_neg he]
      by_cases hp : e.1 = k'
      · unfold jsObjectGet
        rw [List.find?_cons_of_pos _ (by simpa using hp),
          List.find?_cons_of_pos _ (by simpa using hp)]
      · unfold jsObjectGet
        rw [List.find?_cons_of_neg _ (by simpa using hp),
          List.find?_cons_of_neg _ (by simpa using hp)]
        exact ih

theorem jsObjectGet_append_single_ne (m : List (List Char × List Char))
    (k v k' : List Char) (hk : k' ≠ k) :
    jsObjectGet (m ++ [(k, v)]) k' = jsObjectGet m k' := by
  induction m with
  | nil =>
    simp [jsObjectGet, Ne.symm hk]
  | cons e rest ih =>
    rw [List.cons_append]
    by_cases hp : e.1 = k'
    · unfold jsObjectGet
      rw [List.find?_cons_of_pos _ (by simpa using hp),
        List.find?_cons_of_pos _ (by simpa using hp)]
    · unfold jsObjectGet
      rw [List.find?_cons_of_neg _ (by simpa using hp),
        List.find?_cons_of_neg _ (by simpa using hp)]
      exact ih

theorem jsObjectGet_set_ne (m : List (List Char × List Char))
    (k v k' : List Char) (hk : k' ≠ k) :
    jsObjectGet (jsObjectSet m k v) k' = jsObjectGet m k' := by
  unfold jsObjectSet
  by_cases hsome : (m.find? fun x => x.1 = k).isSome
  · rw [if_pos hsome]
    exact jsObjectGet_map_overwrite_ne m k v k' hk
  · rw [if_neg hsome]
    exact jsObjectGet_append_single_ne m k v k' hk

theorem jsObjectGet_spread_not_mem :
    ∀ (entries : List (List Char × List Char))
      (base : List (List Char × List Char)) (k : List Char),
      (∀ e ∈ entries, e.1 ≠ k) →
      jsObjectGet (jsObjectSpread base entries) k = jsObjectGet base k := by
  intro entries
  induction entries with
  | nil =>
    intro base k _
    rfl
  | cons e rest ih =>
    intro base k h
    show jsObjectGet (jsObjectSpread (jsObjectSet base e.1 e.2) rest) k = _
    rw [ih _ k fun e' he' => h e' (List.mem_cons_of_mem _ he')]
    exact jsObjectGet_set_ne base e.1 e.2 k
      (Ne.symm (h e (List.mem_cons_self _ _)))

theorem jsObjectGet_spread_mem :
    ∀ (entries : List (List Char × List Char))
      (base : List (List Char × List Char)) (k v : List Char),
      (entries.map Prod.fst).Nodup → (k, v) ∈ entries →
      jsObjectGet (jsObjectSpread base entries) k = some v := by
  intro entries
  induction entries with
  | nil =>
    intro base k v _ hm
    cases hm
  | cons e rest ih =>
    intro base k v hnd hm
    rw [List.map_cons, List.nodup_cons] at hnd
    obtain ⟨hn1, hn2⟩ := hnd
    rcases List.mem_cons.mp hm with heq | hm
    · subst heq
      show jsObjectGet (jsObjectSpread (jsObjectSet base k v) rest) k = some v
      rw [jsObjectGet_spread_not_mem rest _ k ?hfresh]
      · exact jsObjectGet_set_same base k v
      case hfresh =>
        intro e' he' hek
        have hmm : e'.1 ∈ List.map Prod.fst rest := List.mem_map_of_mem Prod.fst he'
        rw [hek] at hmm
        exact hn1 hmm
    · show jsObjectGet (jsObjectSpread (jsObjectSet base e.1 e.2) rest) k = some v
      exact ih _ k v hn2 hm

theorem get_applyAuthHeader_ne (m : List (List Char × List Char)) (w : Bool)
    (tokenOverride storedToken : Option (List Char)) (k : List Char)
    (hk : k ≠ "Authorization".toList) :
    jsObjectGet (applyAuthHeader m w tokenOverride storedToken) k =
      jsObjectGet m k := by
  unfold applyAuthHeader
  cases w with
  | false => rfl
  | true =>
    cases tokenOverride with
    | some t =>
      dsimp only
      by_cases ht : t ≠ []
      · rw [if_pos ht]
        exact jsObjectGet_set_ne m _ _ k hk
      · rw [if_neg ht]
        rfl
    | none =>
      cases storedToken with
      | some t =>
        dsimp only
        by_cases ht : t ≠ []
        · rw [if_pos ht]
          exact jsObjectGet_set_ne m _ _ k hk
        · rw [if_neg ht]
          rfl
      | none => rfl

theorem get_applyContentTypeDefault_ne (m : List (List Char × List Char))
    (bodyKind : RequestBodyKind) (k : List Char)
    (hk : k ≠ "Content-Type".toList) :
    jsObjectGet (applyContentTypeDefault m bodyKind) k = jsObjectGet m k := by
  unfold applyContentTypeDefault
  cases bodyKind with
  | jsonValue =>
    cases hct : jsObjectGet m "Content-Type".toList with
    | some v => rfl
    | none => exact jsObjectGet_set_ne m _ _ k hk
  | absent => rfl
  | formData => rfl

theorem applyContentTypeDefault_of_present (m : List (List Char × List Char))
    (bodyKind : RequestBodyKind) (v : List Char)
    (h : jsObjectGet m "Content-Type".toList = some v) :
    applyContentTypeDefault m bodyKind = m := by
  unfold applyContentTypeDefault
  cases bodyKind with
  | jsonValue => rw [h]
  | absent => rfl
  | formData => rfl

/-- C9: with `withAuth` (the default) and a truthy resolved token
(`tokenOverride ?? stored token`), the `Authorization` header of the
assembled request is `Bearer <token>` regardless of what the caller put
there — a caller-supplied `Authorization` is silently overwritten; by
contrast, caller-supplied `Accept` and `Content-Type` headers do override
the defaults. -/
theorem buildRequestHeaders_spec :
    (∀ (headers : List (List Char × List Char)) (bodyKind : RequestBodyKind)
        (tokenOverride storedToken : Option (List Char)) (t : List Char),
      (match tokenOverride with
        | some x => some x
        | none => storedToken) = some t →
      t ≠ [] →
      jsObjectGet (buildRequestHeaders headers bodyKind true tokenOverride
        storedToken) "Authorization".toList = some ("Bearer ".toList ++ t)) ∧
    (∀ (headers : List (List Char × List Char)) (bodyKind : RequestBodyKind)
        (withAuth : Bool) (tokenOverride storedToken : Option (List Char))
        (v : List Char),
      (headers.map Prod.fst).Nodup → ("Accept".toList, v) ∈ headers →
      jsObjectGet (buildRequestHeaders headers bodyKind withAuth tokenOverride
        storedToken) "Accept".toList = some v) ∧
    (∀ (headers : List (List Char × List Char)) (withAuth : Bool)
        (tokenOverride storedToken : Option (List Char)) (v : List Char),
      (headers.map Prod.fst).Nodup → ("Content-Type".toList, v) ∈ headers →
      jsObjectGet (buildRequestHeaders headers RequestBodyKind.jsonValue
        withAuth tokenOverride storedToken) "Content-Type".toList = some v) := by
  refine ⟨?_, ?_, ?_⟩
  · intro headers bodyKind tokenOverride storedToken t hres ht
    unfold buildRequestHeaders applyAuthHeader
    cases tokenOverride with
    | some x =>
      rw [Option.some.injEq] at hres
      subst hres
      dsimp only
      rw [if_pos ht]
      exact jsObjectGet_set_same _ _ _
    | none =>
      dsimp only at hres
      subst hres
      dsimp only
      rw [if_pos ht]
      exact jsObjectGet_set_same _ _ _
  · intro headers bodyKind withAuth tokenOverride storedToken v hnd hmem
    unfold buildRequestHeaders
    rw [get_applyAuthHeader_ne _ _ _ _ _ (by decide)]
    rw [get_applyContentTypeDefault_ne _ _ _ (by decide)]
    exact jsObjectGet_spread_mem headers _ _ v hnd hmem
  · intro headers withAuth tokenOverride storedToken v hnd hmem
    unfold buildRequestHeaders
    rw [get_applyAuthHeader_ne _ _ _ _ _ (by decide)]
    have hg : jsObjectGet (mergeDefaultHeaders headers) "Content-Type".toList =
        some v := jsObjectGet_spread_mem headers _ _ v hnd hmem
    rw [applyContentTypeDefault_of_present _ _ v hg]
    exact hg

/-- Instantiation of `buildRequestHeaders_spec`: a caller supplying its
own `Authorization`, `Accept` and `Content-Type` headers, with the token
resolved from storage. -/
theorem buildRequestHeaders_spec_witness :
    jsObjectGet (buildRequestHeaders
        [("Authorization".toList, "Bearer old".toList),
         ("Accept".toList, "text/plain".toList),
         ("Content-Type".toList, "text/csv".toList)]
        RequestBodyKind.jsonValue true none (some "tok".toList))
      "Authorization".toList = some ("Bearer ".toList ++ "tok".toList) ∧
    jsObjectGet (buildRequestHeaders
        [("Authorization".toList, "Bearer old".toList),
         ("Accept".toList, "text/plain".toList),
         ("Content-Type".toList, "text/csv".toList)]
        RequestBodyKind.jsonValue true none (some "tok".toList))
      "Accept".toList = some "text/plain".toList ∧
    jsObjectGet (buildRequestHeaders
        [("Authorization".toList, "Bearer old".toList),
         ("Accept".toList, "text/plain".toList),
         ("Content-Type".toList, "text/csv".toList)]
        RequestBodyKind.jsonValue true none (some "tok".toList))
      "Content-Type".toList = some "text/csv".toList :=
  ⟨buildRequestHeaders_spec.1
      [("Authorization".toList, "Bearer old".toList),
       ("Accept".toList, "text/plain".toList),
       ("Content-Type".toList, "text/csv".toList)]
      RequestBodyKind.jsonValue none (some "tok".toList) "tok".toList
      rfl (by decide),
   buildRequestHeaders_spec.2.1
      [("Authorization".toList, "Bearer old".toList),
       ("Accept".toList, "text/plain".toList),
       ("Content-Type".toList, "text/csv".toList)]
      RequestBodyKind.jsonValue true none (some "tok".toList)
      "text/plain".toList (by decide) (by decide),
   buildRequestHeaders_spec.2.2
      [("Authorization".toList, "Bearer old".toList),
       ("Accept".toList, "text/plain".toList),
       ("Content-Type".toList, "text/csv".toList)]
      true none (some "tok".toList) "text/csv".toList (by decide) (by decide)⟩


end LMS
